import Mathlib

/-!
Verification development for the WorldEdit Obsidian plugin's Google Drive
sync engine (the revision containing `syncVaultToDrive` / `syncDriveToVault`).

The TypeScript source is shallowly embedded: the per-file processing of
`syncVaultToDrive` and `syncDriveToVault`, the skip checks, the folder
search-or-create `validateDriveFolder`, the batch chunking loop
(`for (i = 0; i < n; i += CONCURRENCY_LIMIT) slice(i, i + CONCURRENCY_LIMIT)`),
the deletion sweeps, and the access-token validation `validateAuthTokens`.
External effects (Drive HTTP calls, vault file I/O) are passed in as
environment functions returning `Except` (a thrown JS exception is `.error`),
so the engine's own control flow — in particular which failures are caught
per item and which escape a `Promise.all` batch — is represented exactly.
-/

/-- A value of the `VaultFileRecord` entries stored in
`settings.sync.vaultRecord`: the Drive object id and the last-synced
modification time in epoch milliseconds. -/
structure VaultFileRecord where
  gdriveId : String
  lastModified : Int
  deriving DecidableEq, Repr

/-- `settings.sync.vaultRecord`: a JS object mapping vault-relative path to
`VaultFileRecord`, embedded as an association list with unique keys. -/
abbrev SyncRecord : Type := List (String × VaultFileRecord)

/-- A local vault file handle (`TFile`): path, extension and
`stat.mtime` in epoch milliseconds. -/
structure TFileL where
  path : String
  extension : String
  mtime : Int
  deriving DecidableEq, Repr

/-- `settings.sync.vaultRecord[path]` lookup (`undefined` becomes `none`). -/
def lookupRecord (rec : SyncRecord) (path : String) : Option VaultFileRecord :=
  List.lookup path rec

/-- `delete settings.sync.vaultRecord[path]`. -/
def removeRecord (rec : SyncRecord) (path : String) : SyncRecord :=
  List.filter (fun e => !(e.1 == path)) rec

/-- `settings.sync.vaultRecord[path] = v`: replace the value at an existing
key in place, or append a new key (JS object key-order semantics). -/
def upsertRecord (rec : SyncRecord) (path : String) (v : VaultFileRecord) : SyncRecord :=
  match rec with
  | [] => [(path, v)]
  | e :: rest => if e.1 == path then (path, v) :: rest else e :: upsertRecord rest path v

/-- The batch chunking loop used by both sync directions:
`for (let i = 0; i < items.length; i += k) { batch = items.slice(i, i + k); ... }`.
Produces the consecutive groups in order. (The source only ever calls it with
`k = CONCURRENCY_LIMIT = 5`; the `k = 0` guard exists solely for termination.) -/
def chunks (k : Nat) (l : List α) : List (List α) :=
  if h : l.isEmpty || k == 0 then []
  else l.take k :: chunks k (l.drop k)
termination_by l.length
decreasing_by
  simp only [Bool.or_eq_true, List.isEmpty_iff, beq_iff_eq, not_or] at h
  simp only [List.length_drop]
  have hl : 0 < l.length := List.length_pos.mpr h.1
  omega

/-! ## Push engine (`syncVaultToDrive`) -/

/-- JS `String.prototype.split('/')` over the character list: splitting an
empty string yields `[""]`, and every `'/'` starts a new segment. -/
def splitParts : List Char → List (List Char)
  | [] => [[]]
  | ch :: rest =>
    let r := splitParts rest
    if ch = '/' then [] :: r
    else
      match r with
      | [] => [[ch]]
      | g :: gs => (ch :: g) :: gs

/-- `path.split('/')`. -/
def splitSlash (path : String) : List String :=
  (splitParts path.data).map List.asString

/-- JS `String.prototype.startsWith`: `startsWithChars pattern chars`. -/
def startsWithChars : List Char → List Char → Bool
  | [], _ => true
  | _ :: _, [] => false
  | p :: ps, c :: cs => p == c && startsWithChars ps cs

/-- The push-direction skip check (`syncVaultToDrive` lines 408-413):
`if (fileRecord?.lastModified >= fileModTime)` — with no record entry the
optional chaining yields `undefined` and the comparison is false, so the
file is transferred. -/
def pushSkip (fileRecord : Option VaultFileRecord) (fileModTime : Int) : Bool :=
  match fileRecord with
  | some r => decide (fileModTime ≤ r.lastModified)
  | none => false

/-- `const pathParts = file.path.split('/'); pathParts.pop()` — the folder
segments above the file. -/
def parentParts (path : String) : List String :=
  (splitSlash path).dropLast

/-- `pathParts.pop() ?? file.name` — the final path segment (`split` never
yields an empty array, so the fallback is unreachable). -/
def fileNameOf (path : String) : String :=
  ((splitSlash path).getLast?).getD path

/-- The multipart upload request assembled in `syncVaultToDrive`
(lines 432-457): HTTP method, the remote id targeted by the upload URI
(updates only), the metadata `name`, and the metadata `parents` entry
(creates only — `parents: isUpdate ? undefined : [currentFolderId]`, and
`JSON.stringify` drops an `undefined` field). -/
structure UploadRequest where
  method : String
  targetId : Option String
  name : String
  parents : Option String
  deriving DecidableEq, Repr

/-- `!!fileRecord?.gdriveId` — the record's remote id when the record exists
and the id is truthy (JS: the empty string is falsy). -/
def recordDriveId : Option VaultFileRecord → Option String
  | some r => if r.gdriveId == "" then none else some r.gdriveId
  | none => none

/-- Builds the upload request of `syncVaultToDrive` lines 432-457 from the
file's record, the resolved parent folder id and the file name. -/
def buildUploadRequest (fileRecord : Option VaultFileRecord)
    (currentFolderId fileName : String) : UploadRequest :=
  match recordDriveId fileRecord with
  | some gid => { method := "PATCH", targetId := some gid, name := fileName, parents := none }
  | none => { method := "POST", targetId := none, name := fileName, parents := some currentFolderId }

/-- Environment of external effects consumed by the push engine. Each field
embeds one `await`ed call; `.error` is a thrown JS exception.
- `vdf parentId name`: one `validateDriveFolder` round trip (search-or-create);
- `read file`: `app.vault.read` / `app.vault.readBinary`;
- `upload req`: the multipart upsert `fetch` + `.json()`; `.ok none` is a
  response body without an `id` field (the `!upserted.id` case). -/
structure PushEnv where
  vdf : String → String → Except String String
  read : TFileL → Except String String
  upload : UploadRequest → Except String (Option String)

/-- The sequential subfolder-resolution loop of `syncVaultToDrive`
lines 417-424: `for (const folderName of pathParts) currentFolderId =
await validateDriveFolder(accessToken, currentFolderId, folderName)`. -/
def resolveChain (vdf : String → String → Except String String) :
    String → List String → Except String String
  | currentFolderId, [] => .ok currentFolderId
  | currentFolderId, folderName :: rest =>
    match vdf currentFolderId folderName with
    | .error e => .error e
    | .ok nextId => resolveChain vdf nextId rest

/-- What became of one file inside a push batch. -/
inductive PushOutcome where
  | skipped
  | upserted (id : String)
  | uploadNoId
  deriving DecidableEq, Repr

/-- One file's processing inside a push batch (`syncVaultToDrive`
lines 406-468). There is no try/catch in this callback: any thrown step
(folder resolution, content read, upload call) is an `.error` escaping the
item; the only failure handled in place is an upload response without an
id, which is reported and leaves the record untouched. A successful upsert
writes `{gdriveId: upserted.id, lastModified: fileModTime}` to the record. -/
def pushFile (env : PushEnv) (vaultFolderId : String) (rec : SyncRecord) (file : TFileL) :
    Except String (SyncRecord × PushOutcome) :=
  let fileModTime := file.mtime
  let fileRecord := lookupRecord rec file.path
  if pushSkip fileRecord fileModTime then .ok (rec, .skipped)
  else
    match resolveChain env.vdf vaultFolderId (parentParts file.path) with
    | .error e => .error e
    | .ok currentFolderId =>
      match env.read file with
      | .error e => .error e
      | .ok _content =>
        match env.upload (buildUploadRequest fileRecord currentFolderId (fileNameOf file.path)) with
        | .error e => .error e
        | .ok none => .ok (rec, .uploadNoId)
        | .ok (some id) => .ok (upsertRecord rec file.path ⟨id, fileModTime⟩, .upserted id)

/-- `await Promise.all(batch.map(...))` for one push batch. All items run to
completion (record writes are key-disjoint, so running them in order is
faithful); the third component is the first thrown item error, with which
the `Promise.all` rejects — `none` when every item settled without throwing. -/
def runBatch (env : PushEnv) (vaultFolderId : String) :
    SyncRecord → List TFileL → SyncRecord × List PushOutcome × Option String
  | rec, [] => (rec, [], none)
  | rec, file :: rest =>
    match pushFile env vaultFolderId rec file with
    | .ok (rec1, o) =>
      let t := runBatch env vaultFolderId rec1 rest
      (t.1, o :: t.2.1, t.2.2)
    | .error msg =>
      let t := runBatch env vaultFolderId rec rest
      (t.1, t.2.1, some msg)

/-- The batched upsert loop of `syncVaultToDrive` lines 404-469: batches run
strictly in sequence, and a rejected `Promise.all` makes the `await` throw,
so the remaining batches (and everything after the loop) never run. -/
def runBatches (env : PushEnv) (vaultFolderId : String) :
    SyncRecord → List (List TFileL) → Except String (SyncRecord × List PushOutcome)
  | rec, [] => .ok (rec, [])
  | rec, b :: bs =>
    let t := runBatch env vaultFolderId rec b
    match t.2.2 with
    | some msg => .error msg
    | none =>
      match runBatches env vaultFolderId t.1 bs with
      | .error m => .error m
      | .ok (rec2, os2) => .ok (rec2, t.2.1 ++ os2)

/-- The push deletion sweep (`syncVaultToDrive` lines 472-488): for every
record entry whose path is not among the enumerated local paths, issue a
Drive DELETE for its `gdriveId`; remove the entry exactly when the response
is ok (`deleteOk`), keep it (reporting) otherwise. Returns the new record,
the issued deletes `(path, gdriveId)` and the paths whose entries were
removed. -/
def deleteSweepPush (deleteOk : String → Bool) (localPaths : List String) :
    SyncRecord → SyncRecord × List (String × String) × List String
  | [] => ([], [], [])
  | (p, r) :: rest =>
    let t := deleteSweepPush deleteOk localPaths rest
    if p ∈ localPaths then ((p, r) :: t.1, t.2.1, t.2.2)
    else if deleteOk r.gdriveId then (t.1, (p, r.gdriveId) :: t.2.1, p :: t.2.2)
    else ((p, r) :: t.1, (p, r.gdriveId) :: t.2.1, t.2.2)

/-- The final state of a completed push. -/
structure PushReport where
  record : SyncRecord
  outcomes : List PushOutcome
  issuedDeletes : List (String × String)
  deletedPaths : List String
  deriving DecidableEq, Repr

/-- `syncVaultToDrive` (lines 383-498) after token/root-folder validation:
the batched upsert loop over `chunks 5 files` followed by the deletion
sweep. An error escaping any batch aborts the whole push. -/
def syncVaultToDrive (env : PushEnv) (deleteOk : String → Bool) (vaultFolderId : String)
    (files : List TFileL) (rec : SyncRecord) : Except String PushReport :=
  match runBatches env vaultFolderId rec (chunks 5 files) with
  | .error msg => .error msg
  | .ok (rec1, outcomes) =>
    let t := deleteSweepPush deleteOk (files.map (fun f => f.path)) rec1
    .ok { record := t.1, outcomes := outcomes, issuedDeletes := t.2.1, deletedPaths := t.2.2 }

/-! ## Pull engine (`syncDriveToVault`) -/

/-- Result of `app.vault.getAbstractFileByPath`: a regular file (`TFile`,
carrying `stat.mtime`), a folder (`TFolder`), or `null`. -/
inductive LocalEntry where
  | tfile (mtime : Int)
  | tfolder
  deriving DecidableEq, Repr

/-- Metadata of a discovered Drive file, as held in `driveFileMap`
(`modifiedTime` already as `new Date(driveFile.modifiedTime).getTime()`). -/
structure DriveFileMeta where
  id : String
  name : String
  mimeType : String
  modifiedTime : Int
  deriving DecidableEq, Repr

/-- `driveFile.mimeType.startsWith('application/vnd.google-apps')` — a
non-downloadable editor-native file fetched via the export route. -/
def isEditorFile (mimeType : String) : Bool :=
  startsWithChars "application/vnd.google-apps".data mimeType.data

/-- `localFile instanceof TFile ? localFile.stat.mtime : 0` — the local
modification time used by the pull skip check; anything that is not a
regular file contributes `0`. -/
def localMtimeOf : Option LocalEntry → Int
  | some (.tfile m) => m
  | _ => 0

/-- `fileRecord?.gdriveId === driveFile.id` — false when there is no record
entry (optional chaining gives `undefined`). -/
def recIdMatches (fileRecord : Option VaultFileRecord) (driveId : String) : Bool :=
  match fileRecord with
  | some r => r.gdriveId == driveId
  | none => false

/-- The pull-direction skip check (`syncDriveToVault` lines 580-590):
`if (localFile && fileRecord?.gdriveId === driveFile.id) { if (localModTime
>= driveModTime) skip }`. -/
def pullSkip (localFile : Option LocalEntry) (fileRecord : Option VaultFileRecord)
    (driveFile : DriveFileMeta) : Bool :=
  localFile.isSome && recIdMatches fileRecord driveFile.id
    && decide (driveFile.modifiedTime ≤ localMtimeOf localFile)

/-- `filePath.split('/').slice(0, -1).join('/')` — the parent folder path
passed to `vault.createFolder`. -/
def parentFolderPath (filePath : String) : String :=
  String.intercalate "/" ((splitSlash filePath).dropLast)

/-- Environment of external effects consumed by the pull engine.
- `localFs`: `app.vault.getAbstractFileByPath`;
- `fetch id isExport`: the content GET (`/export?mimeType=text/markdown` for
  editor-native files, `?alt=media` otherwise); `.error` is a thrown fetch;
- `modifyOk path`: whether `app.vault.modify` on the existing `TFile` at
  `path` succeeds;
- `writeOk path`: whether `app.vault.adapter.writeBinary(path, ...)`
  succeeds (it creates the file when absent). -/
structure PullEnv where
  localFs : String → Option LocalEntry
  fetch : String → Bool → Except String String
  modifyOk : String → Bool
  writeOk : String → Bool

/-- What became of one drive file inside a pull batch. -/
inductive PullOutcome where
  | skipped
  | upserted
  | failReported (msg : String)
  deriving DecidableEq, Repr

/-- The try-block body of `syncDriveToVault` lines 604-620, as the
`Except` it produces: parent-folder creation (only when no local file
exists; its own errors are swallowed by `.catch`), then
`vault.modify(localFile as TFile, text)` for editor-native files — which
throws when `localFile` is `null` or a folder, since `modify` requires a
`TFile` — or `adapter.writeBinary(filePath, bytes)` otherwise. -/
def pullWriteAttempt (env : PullEnv) (filePath : String) (isEd : Bool)
    (localFile : Option LocalEntry) : Except String Unit :=
  if isEd then
    match localFile with
    | some (.tfile _) =>
      if env.modifyOk filePath then .ok () else .error ("modify failed: " ++ filePath)
    | _ => .error ("vault.modify called without a TFile: " ++ filePath)
  else
    if env.writeOk filePath then .ok () else .error ("write failed: " ++ filePath)

/-- One drive file's processing inside a pull batch (`syncDriveToVault`
lines 575-632). The content fetch sits outside the try/catch, so a thrown
download escapes the item (`.error`); failures inside the try block are
caught, reported, and leave the record unchanged. A successful write
upserts `{gdriveId: driveFile.id, lastModified: driveModTime}`. -/
def pullItem (env : PullEnv) (rec : SyncRecord) (filePath : String)
    (driveFile : DriveFileMeta) : Except String (SyncRecord × PullOutcome) :=
  let localFile := env.localFs filePath
  let fileRecord := lookupRecord rec filePath
  if pullSkip localFile fileRecord driveFile then .ok (rec, .skipped)
  else
    let isEd := isEditorFile driveFile.mimeType
    match env.fetch driveFile.id isEd with
    | .error e => .error e
    | .ok _content =>
      match pullWriteAttempt env filePath isEd localFile with
      | .ok _ =>
        .ok (upsertRecord rec filePath ⟨driveFile.id, driveFile.modifiedTime⟩, .upserted)
      | .error e => .ok (rec, .failReported e)

/-- The pull deletion sweep (`syncDriveToVault` lines 636-648): every local
file absent from `driveFileMap` but present in the record is deleted
locally (`deleteOk`); on success its entry is dropped, on a thrown delete
the failure is reported and the entry kept. Returns the new record, the
paths deleted, and the paths whose delete failed. -/
def deleteSweepPull (deleteOk : String → Bool) (drivePaths : List String) :
    SyncRecord → List String → SyncRecord × List String × List String
  | rec, [] => (rec, [], [])
  | rec, p :: ps =>
    if p ∉ drivePaths ∧ (lookupRecord rec p).isSome then
      if deleteOk p then
        let t := deleteSweepPull deleteOk drivePaths (removeRecord rec p) ps
        (t.1, p :: t.2.1, t.2.2)
      else
        let t := deleteSweepPull deleteOk drivePaths rec ps
        (t.1, t.2.1, p :: t.2.2)
    else deleteSweepPull deleteOk drivePaths rec ps

/-! ## Drive folder search-or-create (`validateDriveFolder`) -/

/-- A Drive folder object as seen by the folder queries. -/
structure DriveFolder where
  id : String
  name : String
  parent : String
  trashed : Bool
  deriving DecidableEq, Repr

/-- The Drive store as the folder API sees it, plus a log of the folder
names created (in order), used to count create calls. -/
structure DriveState where
  folders : List DriveFolder
  nextId : Nat
  createLog : List String
  deriving DecidableEq, Repr

/-- The search query of `validateDriveFolder` lines 350-360:
`name='folderName' and 'parentFolderId' in parents and
mimeType=folder and trashed=false`, returning `files[0].id` when found. -/
def searchFolder (st : DriveState) (parentFolderId folderName : String) : Option String :=
  (st.folders.find? fun f =>
    f.name == folderName && f.parent == parentFolderId && !f.trashed).map (fun f => f.id)

/-- The folder-create POST of `validateDriveFolder` lines 363-380. -/
def createFolder (st : DriveState) (parentFolderId folderName : String) : String × DriveState :=
  let newId := "folder-" ++ toString st.nextId
  (newId,
    { folders := st.folders ++ [⟨newId, folderName, parentFolderId, false⟩],
      nextId := st.nextId + 1,
      createLog := st.createLog ++ [folderName] })

/-- `validateDriveFolder` (lines 349-381): search for a non-trashed folder
of that name under the parent; return its id without mutation when found,
otherwise create it and return the new id. -/
def validateDriveFolder (st : DriveState) (parentFolderId folderName : String) :
    String × DriveState :=
  match searchFolder st parentFolderId folderName with
  | some id => (id, st)
  | none => createFolder st parentFolderId folderName

/-- Two same-named resolutions run strictly in sequence (the second search
observes the first resolution's state). -/
def resolveTwiceSeq (st : DriveState) (parentFolderId folderName : String) :
    String × String × DriveState :=
  let t1 := validateDriveFolder st parentFolderId folderName
  let t2 := validateDriveFolder t1.2 parentFolderId folderName
  (t1.1, t2.1, t2.2)

/-- Two same-named resolutions as two items of one push batch execute them:
`Promise.all(batch.map(...))` starts every item synchronously, so both
items issue their search fetch against the state before either create; the
conditional creates then land one after the other, each item acting on its
own (stale) search result. -/
def resolveTwiceBatch (st : DriveState) (parentFolderId folderName : String) :
    String × String × DriveState :=
  let s1 := searchFolder st parentFolderId folderName
  let s2 := searchFolder st parentFolderId folderName
  let t1 :=
    match s1 with
    | some id => (id, st)
    | none => createFolder st parentFolderId folderName
  let t2 :=
    match s2 with
    | some id => (id, t1.2)
    | none => createFolder t1.2 parentFolderId folderName
  (t1.1, t2.1, t2.2)

/-- How many times a folder of this name was created. -/
def createsOf (st : DriveState) (folderName : String) : Nat :=
  st.createLog.count folderName

/-! ## Access-token validation (`validateAuthTokens`) -/

/-- `settings.auth`. -/
structure UserAuth where
  id : String
  email : String
  refreshToken : String
  accessToken : String
  accessExpiry : String
  deriving DecidableEq, Repr

/-- The body of the token-refresh response. -/
structure TokenResponse where
  accessToken : String
  refreshToken : String
  expiry : String
  deriving DecidableEq, Repr

/-- The expiry test of `validateAuthTokens` line 332:
`now >= new Date(settings.auth.accessExpiry)`. `parseDate` stands for the
JS `Date` parser, `none` for an Invalid Date (`NaN` time value) — any
comparison against `NaN` is false in JS, hence the `none` branch. -/
def tokenExpired (parseDate : String → Option Int) (now : Int) (accessExpiry : String) : Bool :=
  match parseDate accessExpiry with
  | some t => decide (t ≤ now)
  | none => false

/-- `validateAuthTokens` (lines 327-347): when the expiry test holds,
perform the refresh exchange and overwrite access token, refresh token and
expiry before returning the (new) access token; otherwise return the stored
access token with the credentials untouched. The middle component records
whether a refresh exchange was performed. -/
def validateAuthTokens (parseDate : String → Option Int) (now : Int)
    (refreshExchange : String → TokenResponse) (auth : UserAuth) :
    UserAuth × Bool × String :=
  if tokenExpired parseDate now auth.accessExpiry then
    let r := refreshExchange auth.id
    let auth1 := { auth with
      accessToken := r.accessToken
      refreshToken := r.refreshToken
      accessExpiry := r.expiry }
    (auth1, true, auth1.accessToken)
  else (auth, false, auth.accessToken)

/-! ## Concrete instances used to evaluate the engine -/

/-- A push environment in which every remote call succeeds. -/
def envPushOk : PushEnv where
  vdf := fun _ name => .ok ("id-" ++ name)
  read := fun _ => .ok "content"
  upload := fun _ => .ok (some "id-upserted")

/-- A push environment whose folder search/create fetch throws. -/
def envPushResolveErr : PushEnv where
  vdf := fun _ _ => .error "network error"
  read := fun _ => .ok "content"
  upload := fun _ => .ok (some "id-upserted")

/-- A push environment whose upload responds without an `id` field. -/
def envPushNoId : PushEnv where
  vdf := fun _ name => .ok ("id-" ++ name)
  read := fun _ => .ok "content"
  upload := fun _ => .ok none

/-- A pull environment with no local counterpart anywhere and all I/O
succeeding: the state of the spec's editor-native example scenario. -/
def envPullFresh : PullEnv where
  localFs := fun _ => none
  fetch := fun _ _ => .ok "exported markdown"
  modifyOk := fun _ => true
  writeOk := fun _ => true

/-- A pull environment holding one up-to-date local file `a.md`. -/
def envPullUpToDate : PullEnv where
  localFs := fun p => if p == "a.md" then some (.tfile 2000) else none
  fetch := fun _ _ => .ok "content"
  modifyOk := fun _ => true
  writeOk := fun _ => true

/-- A pull environment in which a folder occupies the path `notes`. -/
def envPullFolderAt : PullEnv where
  localFs := fun p => if p == "notes" then some .tfolder else none
  fetch := fun _ _ => .ok "content"
  modifyOk := fun _ => true
  writeOk := fun _ => true

/-- A pull environment whose binary write fails. -/
def envPullWriteFail : PullEnv where
  localFs := fun _ => none
  fetch := fun _ _ => .ok "content"
  modifyOk := fun _ => true
  writeOk := fun _ => false

/-- A Drive state with no folders at all. -/
def emptyDrive : DriveState where
  folders := []
  nextId := 0
  createLog := []

/-- A Drive state in which folder `a` already exists under `root`. -/
def stWithA : DriveState where
  folders := [⟨"fa", "a", "root", false⟩]
  nextId := 1
  createLog := []

/-- `DEFAULT_SETTINGS.auth`: every credential field is the empty string. -/
def authEmpty : UserAuth where
  id := ""
  email := ""
  refreshToken := ""
  accessToken := ""
  accessExpiry := ""
/-! ## Helper lemmas -/

theorem chunks_nil (k : Nat) : chunks k ([] : List α) = [] := by
  rw [chunks]
  simp

theorem chunks_cons (k : Nat) (l : List α) (hl : l ≠ []) (hk : k ≠ 0) :
    chunks k l = l.take k :: chunks k (l.drop k) := by
  rw [chunks]
  have hcond : ¬((l.isEmpty || k == 0) = true) := by
    simp only [Bool.or_eq_true, List.isEmpty_iff, beq_iff_eq, not_or]
    exact ⟨hl, hk⟩
  rw [dif_neg hcond]

theorem chunks_join (k : Nat) (hk : k ≠ 0) (l : List α) : (chunks k l).flatten = l := by
  by_cases hl : l = []
  · subst hl
    rw [chunks_nil]
    rfl
  · rw [chunks_cons k l hl hk]
    rw [List.flatten_cons]
    rw [chunks_join k hk (l.drop k)]
    exact List.take_append_drop k l
termination_by l.length
decreasing_by
  simp only [List.length_drop]
  have hp : 0 < l.length := List.length_pos.mpr hl
  omega

theorem chunks_sizes (k : Nat) (hk : k ≠ 0) (l : List α) :
    ∀ c ∈ chunks k l, 0 < c.length ∧ c.length ≤ k := by
  by_cases hl : l = []
  · subst hl
    rw [chunks_nil]
    intro c hc
    exact absurd hc (List.not_mem_nil c)
  · rw [chunks_cons k l hl hk]
    intro c hc
    rcases List.mem_cons.mp hc with h | h
    · subst h
      constructor
      · simp only [List.length_take]
        have hp : 0 < l.length := List.length_pos.mpr hl
        omega
      · simp only [List.length_take]
        omega
    · exact chunks_sizes k hk (l.drop k) c h
termination_by l.length
decreasing_by
  simp only [List.length_drop]
  have hp : 0 < l.length := List.length_pos.mpr hl
  omega

theorem chunks_lengths_twelve (l : List α) (h12 : l.length = 12) :
    (chunks 5 l).map List.length = [5, 5, 2] := by
  have h1 : l ≠ [] := by
    intro h
    rw [h] at h12
    simp at h12
  rw [chunks_cons 5 l h1 (by omega)]
  have hd1 : (l.drop 5).length = 7 := by
    simp only [List.length_drop]
    omega
  have h2 : l.drop 5 ≠ [] := by
    intro h
    rw [h] at hd1
    simp at hd1
  rw [chunks_cons 5 (l.drop 5) h2 (by omega)]
  have hd2 : ((l.drop 5).drop 5).length = 2 := by
    simp only [List.length_drop]
    omega
  have h3 : (l.drop 5).drop 5 ≠ [] := by
    intro h
    rw [h] at hd2
    simp at hd2
  rw [chunks_cons 5 ((l.drop 5).drop 5) h3 (by omega)]
  have hd3 : (((l.drop 5).drop 5).drop 5).length = 0 := by
    simp only [List.length_drop]
    omega
  have h4 : ((l.drop 5).drop 5).drop 5 = [] := List.eq_nil_of_length_eq_zero hd3
  rw [h4, chunks_nil]
  simp only [List.map_cons, List.map_nil, List.length_take]
  rw [h12, hd1, hd2]
  decide


theorem lookupRecord_cons (q : String) (s : VaultFileRecord) (rest : SyncRecord) (p : String) :
    lookupRecord ((q, s) :: rest) p = if p = q then some s else lookupRecord rest p := by
  simp only [lookupRecord, List.lookup_cons]
  by_cases h : p = q
  · subst h
    simp
  · have hb : (p == q) = false := beq_eq_false_iff_ne.mpr h
    rw [hb, if_neg h]

theorem removeRecord_cons (k : String) (s : VaultFileRecord) (rest : SyncRecord) (q : String) :
    removeRecord ((k, s) :: rest) q
      = if k = q then removeRecord rest q else (k, s) :: removeRecord rest q := by
  simp only [removeRecord, List.filter_cons]
  by_cases h : k = q
  · subst h
    simp
  · have hb : (k == q) = false := beq_eq_false_iff_ne.mpr h
    rw [hb]
    simp [h]

theorem lookupRecord_removeRecord_self (rec : SyncRecord) (p : String) :
    lookupRecord (removeRecord rec p) p = none := by
  induction rec with
  | nil => rfl
  | cons e rest ih =>
    obtain ⟨q, s⟩ := e
    rw [removeRecord_cons]
    by_cases h : q = p
    · rw [if_pos h]
      exact ih
    · rw [if_neg h, lookupRecord_cons, if_neg (fun hpq => h hpq.symm)]
      exact ih

theorem lookupRecord_removeRecord_ne (rec : SyncRecord) (p q : String) (h : p ≠ q) :
    lookupRecord (removeRecord rec q) p = lookupRecord rec p := by
  induction rec with
  | nil => rfl
  | cons e rest ih =>
    obtain ⟨k, s⟩ := e
    rw [removeRecord_cons]
    by_cases hk : k = q
    · rw [if_pos hk, lookupRecord_cons, if_neg (fun hpk => h (hpk.trans hk))]
      exact ih
    · rw [if_neg hk, lookupRecord_cons, lookupRecord_cons]
      by_cases hpk : p = k
      · rw [if_pos hpk, if_pos hpk]
      · rw [if_neg hpk, if_neg hpk]
        exact ih

theorem lookupRecord_removeRecord_none (rec : SyncRecord) (p q : String)
    (h : lookupRecord rec p = none) : lookupRecord (removeRecord rec q) p = none := by
  by_cases hpq : p = q
  · subst hpq
    exact lookupRecord_removeRecord_self rec p
  · rw [lookupRecord_removeRecord_ne rec p q hpq]
    exact h

theorem pushFile_skipped_iff (env : PushEnv) (vfid : String) (rec rec1 : SyncRecord)
    (file : TFileL) :
    pushFile env vfid rec file = .ok (rec1, .skipped)
      ↔ (pushSkip (lookupRecord rec file.path) file.mtime = true ∧ rec1 = rec) := by
  unfold pushFile
  by_cases hs : pushSkip (lookupRecord rec file.path) file.mtime
  · simp only [hs, if_true, true_and]
    constructor
    · intro h
      injection h with h1
      exact congrArg Prod.fst h1.symm
    · intro h
      rw [h]
  · simp only [hs, Bool.false_eq_true, if_false, false_and, iff_false]
    cases hr : resolveChain env.vdf vfid (parentParts file.path) with
    | error e => simp [hr]
    | ok fid =>
      try simp only [hr]
      cases hread : env.read file with
      | error e => simp [hread]
      | ok c =>
        try simp only [hread]
        cases hup : env.upload (buildUploadRequest (lookupRecord rec file.path) fid
            (fileNameOf file.path)) with
        | error e => simp [hup]
        | ok o =>
          try simp only [hup]
          cases o <;> simp

theorem pullItem_skipped_iff (env : PullEnv) (rec rec1 : SyncRecord) (filePath : String)
    (df : DriveFileMeta) :
    pullItem env rec filePath df = .ok (rec1, .skipped)
      ↔ (pullSkip (env.localFs filePath) (lookupRecord rec filePath) df = true ∧ rec1 = rec) := by
  unfold pullItem
  by_cases hs : pullSkip (env.localFs filePath) (lookupRecord rec filePath) df
  · simp only [hs, if_true, true_and]
    constructor
    · intro h
      injection h with h1
      exact congrArg Prod.fst h1.symm
    · intro h
      rw [h]
  · simp only [hs, Bool.false_eq_true, if_false, false_and, iff_false]
    cases hf : env.fetch df.id (isEditorFile df.mimeType) with
    | error e => simp [hf]
    | ok c =>
      try simp only [hf]
      cases hw : pullWriteAttempt env filePath (isEditorFile df.mimeType) (env.localFs filePath) with
      | error e => simp [hw]
      | ok u => simp [hw]

theorem sweepPush_nonkey (deleteOk : String → Bool) (localPaths : List String)
    (rec : SyncRecord) (p : String) (h : p ∉ rec.map Prod.fst) :
    lookupRecord (deleteSweepPush deleteOk localPaths rec).1 p = none
    ∧ p ∉ (deleteSweepPush deleteOk localPaths rec).2.2 := by
  induction rec with
  | nil => exact ⟨rfl, by simp [deleteSweepPush]⟩
  | cons e rest ih =>
    obtain ⟨q, s⟩ := e
    simp only [List.map_cons, List.mem_cons, not_or] at h
    obtain ⟨hpq, hrest⟩ := h
    obtain ⟨ih1, ih2⟩ := ih hrest
    simp only [deleteSweepPush]
    by_cases hq : q ∈ localPaths
    · rw [if_pos hq]
      refine ⟨?_, ih2⟩
      rw [lookupRecord_cons, if_neg hpq]
      exact ih1
    · rw [if_neg hq]
      by_cases hd : deleteOk s.gdriveId
      · rw [if_pos hd]
        refine ⟨ih1, ?_⟩
        simp only [List.mem_cons, not_or]
        exact ⟨hpq, ih2⟩
      · rw [if_neg hd]
        refine ⟨?_, ih2⟩
        rw [lookupRecord_cons, if_neg hpq]
        exact ih1

theorem sweepPush_spec (deleteOk : String → Bool) (localPaths : List String)
    (rec : SyncRecord) (p : String) (r : VaultFileRecord)
    (hnd : (rec.map Prod.fst).Nodup) (hmem : (p, r) ∈ rec) (habs : p ∉ localPaths) :
    (p, r.gdriveId) ∈ (deleteSweepPush deleteOk localPaths rec).2.1
    ∧ (deleteOk r.gdriveId = true →
        lookupRecord (deleteSweepPush deleteOk localPaths rec).1 p = none
        ∧ p ∈ (deleteSweepPush deleteOk localPaths rec).2.2)
    ∧ (deleteOk r.gdriveId = false →
        lookupRecord (deleteSweepPush deleteOk localPaths rec).1 p = some r
        ∧ p ∉ (deleteSweepPush deleteOk localPaths rec).2.2) := by
  induction rec with
  | nil => cases hmem
  | cons e rest ih =>
    obtain ⟨q, s⟩ := e
    simp only [List.map_cons, List.nodup_cons] at hnd
    obtain ⟨hqnot, hndrest⟩ := hnd
    simp only [deleteSweepPush]
    rcases List.mem_cons.mp hmem with heq | hmem2
    · injection heq with hp hr
      subst hp
      subst hr
      rw [if_neg habs]
      obtain ⟨h1, h2⟩ := sweepPush_nonkey deleteOk localPaths rest p hqnot
      by_cases hd : deleteOk r.gdriveId
      · rw [if_pos hd]
        refine ⟨List.mem_cons_self _ _, fun _ => ⟨h1, List.mem_cons_self _ _⟩, fun hf => ?_⟩
        rw [hd] at hf
        cases hf
      · rw [if_neg hd]
        have hdf : deleteOk r.gdriveId = false := Bool.not_eq_true _ ▸ hd
        refine ⟨List.mem_cons_self _ _, fun ht => absurd ht hd, fun _ => ?_⟩
        refine ⟨?_, h2⟩
        rw [lookupRecord_cons, if_pos rfl]
    · have hpk : p ∈ rest.map Prod.fst := List.mem_map_of_mem Prod.fst hmem2
      have hpq : p ≠ q := fun h => hqnot (h ▸ hpk)
      obtain ⟨ih1, ih2, ih3⟩ := ih hndrest hmem2
      by_cases hq : q ∈ localPaths
      · rw [if_pos hq]
        refine ⟨ih1, fun ht => ⟨?_, (ih2 ht).2⟩, fun hf => ⟨?_, (ih3 hf).2⟩⟩
        · rw [lookupRecord_cons, if_neg hpq]
          exact (ih2 ht).1
        · rw [lookupRecord_cons, if_neg hpq]
          exact (ih3 hf).1
      · rw [if_neg hq]
        by_cases hd : deleteOk s.gdriveId
        · rw [if_pos hd]
          refine ⟨List.mem_cons_of_mem _ ih1,
            fun ht => ⟨(ih2 ht).1, List.mem_cons_of_mem _ (ih2 ht).2⟩,
            fun hf => ⟨(ih3 hf).1, ?_⟩⟩
          simp only [List.mem_cons, not_or]
          exact ⟨hpq, (ih3 hf).2⟩
        · rw [if_neg hd]
          refine ⟨List.mem_cons_of_mem _ ih1, fun ht => ⟨?_, (ih2 ht).2⟩,
            fun hf => ⟨?_, (ih3 hf).2⟩⟩
          · rw [lookupRecord_cons, if_neg hpq]
            exact (ih2 ht).1
          · rw [lookupRecord_cons, if_neg hpq]
            exact (ih3 hf).1

theorem sweepPull_none_preserved (deleteOk : String → Bool) (drivePaths : List String)
    (ps : List String) (rec : SyncRecord) (p : String)
    (h : lookupRecord rec p = none) :
    lookupRecord (deleteSweepPull deleteOk drivePaths rec ps).1 p = none := by
  induction ps generalizing rec with
  | nil => exact h
  | cons q ps ih =>
    simp only [deleteSweepPull]
    by_cases hcond : q ∉ drivePaths ∧ (lookupRecord rec q).isSome = true
    · rw [if_pos hcond]
      by_cases hd : deleteOk q
      · rw [if_pos hd]
        exact ih (removeRecord rec q) (lookupRecord_removeRecord_none rec p q h)
      · rw [if_neg hd]
        exact ih rec h
    · rw [if_neg hcond]
      exact ih rec h

theorem sweepPull_lookup_preserved (deleteOk : String → Bool) (drivePaths : List String)
    (ps : List String) (rec : SyncRecord) (p : String)
    (h : deleteOk p = false) :
    lookupRecord (deleteSweepPull deleteOk drivePaths rec ps).1 p = lookupRecord rec p := by
  induction ps generalizing rec with
  | nil => rfl
  | cons q ps ih =>
    simp only [deleteSweepPull]
    by_cases hcond : q ∉ drivePaths ∧ (lookupRecord rec q).isSome = true
    · rw [if_pos hcond]
      by_cases hd : deleteOk q
      · rw [if_pos hd]
        have hqp : p ≠ q := by
          intro he
          rw [he, hd] at h
          cases h
        rw [ih (removeRecord rec q)]
        exact lookupRecord_removeRecord_ne rec p q hqp
      · rw [if_neg hd]
        exact ih rec
    · rw [if_neg hcond]
      exact ih rec

theorem sweepPull_spec (deleteOk : String → Bool) (drivePaths : List String)
    (ps : List String) (rec : SyncRecord) (p : String) (r : VaultFileRecord)
    (hmem : p ∈ ps) (habs : p ∉ drivePaths) (hrec : lookupRecord rec p = some r) :
    (deleteOk p = true →
      p ∈ (deleteSweepPull deleteOk drivePaths rec ps).2.1
      ∧ lookupRecord (deleteSweepPull deleteOk drivePaths rec ps).1 p = none)
    ∧ (deleteOk p = false →
      p ∈ (deleteSweepPull deleteOk drivePaths rec ps).2.2
      ∧ lookupRecord (deleteSweepPull deleteOk drivePaths rec ps).1 p = some r) := by
  induction ps generalizing rec with
  | nil => cases hmem
  | cons q ps ih =>
    simp only [deleteSweepPull]
    rcases List.mem_cons.mp hmem with heq | hmem2
    · subst heq
      have hcond : p ∉ drivePaths ∧ (lookupRecord rec p).isSome = true := by
        refine ⟨habs, ?_⟩
        rw [hrec]
        rfl
      rw [if_pos hcond]
      constructor
      · intro ht
        rw [if_pos ht]
        exact ⟨List.mem_cons_self _ _,
          sweepPull_none_preserved deleteOk drivePaths ps (removeRecord rec p) p
            (lookupRecord_removeRecord_self rec p)⟩
      · intro hf
        have hdn : ¬(deleteOk p = true) := by
          rw [hf]
          exact Bool.false_ne_true
        rw [if_neg hdn]
        refine ⟨List.mem_cons_self _ _, ?_⟩
        rw [sweepPull_lookup_preserved deleteOk drivePaths ps rec p hf]
        exact hrec
    · by_cases hcond : q ∉ drivePaths ∧ (lookupRecord rec q).isSome = true
      · rw [if_pos hcond]
        by_cases hd : deleteOk q
        · rw [if_pos hd]
          by_cases hpq : p = q
          · subst hpq
            constructor
            · intro _
              exact ⟨List.mem_cons_self _ _,
                sweepPull_none_preserved deleteOk drivePaths ps (removeRecord rec p) p
                  (lookupRecord_removeRecord_self rec p)⟩
            · intro hf
              rw [hf] at hd
              cases hd
          · have hrec2 : lookupRecord (removeRecord rec q) p = some r := by
              rw [lookupRecord_removeRecord_ne rec p q hpq]
              exact hrec
            obtain ⟨s1, s2⟩ := ih (removeRecord rec q) hmem2 hrec2
            exact ⟨fun ht => ⟨List.mem_cons_of_mem _ (s1 ht).1, (s1 ht).2⟩,
              fun hf => ⟨(s2 hf).1, (s2 hf).2⟩⟩
        · rw [if_neg hd]
          obtain ⟨s1, s2⟩ := ih rec hmem2 hrec
          exact ⟨fun ht => ⟨(s1 ht).1, (s1 ht).2⟩,
            fun hf => ⟨List.mem_cons_of_mem _ (s2 hf).1, (s2 hf).2⟩⟩
      · rw [if_neg hcond]
        exact ih rec hmem2 hrec

theorem runBatch_error_continues (env : PushEnv) (vfid : String) (rec : SyncRecord)
    (file : TFileL) (rest : List TFileL) (msg : String)
    (h : pushFile env vfid rec file = .error msg) :
    runBatch env vfid rec (file :: rest)
      = ((runBatch env vfid rec rest).1, (runBatch env vfid rec rest).2.1, some msg) := by
  simp only [runBatch, h]

theorem runBatches_head_error (env : PushEnv) (vfid : String) (rec : SyncRecord)
    (b : List TFileL) (bs : List (List TFileL)) (msg : String)
    (h : (runBatch env vfid rec b).2.2 = some msg) :
    runBatches env vfid rec (b :: bs) = .error msg := by
  simp only [runBatches, h]

theorem validateDriveFolder_found (st : DriveState) (parentId folderName fid : String)
    (h : searchFolder st parentId folderName = some fid) :
    validateDriveFolder st parentId folderName = (fid, st) := by
  unfold validateDriveFolder
  rw [h]

theorem validateDriveFolder_created (st : DriveState) (parentId folderName : String)
    (h : searchFolder st parentId folderName = none) :
    validateDriveFolder st parentId folderName = createFolder st parentId folderName := by
  unfold validateDriveFolder
  rw [h]

theorem searchFolder_createFolder (st : DriveState) (parentId folderName : String)
    (h : searchFolder st parentId folderName = none) :
    searchFolder (createFolder st parentId folderName).2 parentId folderName
      = some (createFolder st parentId folderName).1 := by
  unfold searchFolder at h ⊢
  unfold createFolder
  simp only [Option.map_eq_none'] at h
  simp only [List.find?_append, h, Option.none_or]
  rw [List.find?_cons_of_pos]
  · rfl
  · simp

/-! ## Claim theorems -/

/-- C1: On push, for every local file with a SyncRecord entry, the file is
skipped — the item settles as `.ok (rec, .skipped)`, performing no transfer
and leaving the record entry unchanged — if and only if
`record.lastModified >= localMtime` (so a record with `lastModified` equal
to the local mtime is skipped); a file with no record entry is never
skipped, i.e. always proceeds to transfer. -/
theorem push_skip_boundary (env : PushEnv) (vfid : String) (rec : SyncRecord)
    (file : TFileL) :
    (∀ r, lookupRecord rec file.path = some r →
      (pushFile env vfid rec file = .ok (rec, .skipped) ↔ file.mtime ≤ r.lastModified))
    ∧ (lookupRecord rec file.path = none →
      ∀ rec1, pushFile env vfid rec file ≠ .ok (rec1, .skipped)) := by
  constructor
  · intro r hr
    rw [pushFile_skipped_iff]
    simp [pushSkip, hr]
  · intro hn rec1 hcontra
    obtain ⟨hskip, _⟩ := (pushFile_skipped_iff env vfid rec rec1 file).mp hcontra
    rw [hn] at hskip
    simp [pushSkip] at hskip

/-- Witness for C1 at concrete inputs: a record at exactly the local mtime
is skipped with the record unchanged, and a file without a record entry is
never skipped. -/
theorem push_skip_boundary_witness :
    pushFile envPushOk "vf" [("a.md", ⟨"X", 1000⟩)] ⟨"a.md", "md", 1000⟩
      = .ok ([("a.md", ⟨"X", 1000⟩)], .skipped)
    ∧ pushFile envPushOk "vf" [] ⟨"b.md", "md", 1000⟩ ≠ .ok ([], .skipped) := by
  constructor
  · exact ((push_skip_boundary envPushOk "vf" [("a.md", ⟨"X", 1000⟩)]
      ⟨"a.md", "md", 1000⟩).1 ⟨"X", 1000⟩ rfl).mpr (by decide)
  · exact (push_skip_boundary envPushOk "vf" [] ⟨"b.md", "md", 1000⟩).2 rfl []

/-- C2: On pull, a discovered remote file is skipped — `.ok (rec, .skipped)`,
before any fetch or write, record entry unchanged — if and only if a local
counterpart exists at the path, the record's remote id equals the remote
file's id, and the local mtime is at least the remote modified time; if any
of the three fails the item proceeds to transfer. A skipped result always
carries the unchanged record. -/
theorem pull_skip_boundary (env : PullEnv) (rec : SyncRecord) (filePath : String)
    (df : DriveFileMeta) :
    (pullItem env rec filePath df = .ok (rec, .skipped)
      ↔ ((env.localFs filePath).isSome = true
         ∧ recIdMatches (lookupRecord rec filePath) df.id = true
         ∧ df.modifiedTime ≤ localMtimeOf (env.localFs filePath)))
    ∧ (∀ rec1, pullItem env rec filePath df = .ok (rec1, .skipped) → rec1 = rec) := by
  constructor
  · rw [pullItem_skipped_iff]
    simp [pullSkip, and_assoc]
  · intro rec1 h
    exact ((pullItem_skipped_iff env rec rec1 filePath df).mp h).2

/-- Witness for C2: an up-to-date local file with matching remote id is
skipped with the record unchanged. -/
theorem pull_skip_boundary_witness :
    pullItem envPullUpToDate [("a.md", ⟨"X", 0⟩)] "a.md" ⟨"X", "a.md", "text/markdown", 1500⟩
      = .ok ([("a.md", ⟨"X", 0⟩)], .skipped) :=
  ((pull_skip_boundary envPullUpToDate [("a.md", ⟨"X", 0⟩)] "a.md"
    ⟨"X", "a.md", "text/markdown", 1500⟩).1).mpr ⟨rfl, rfl, by decide⟩

/-- C9: On pull, when a non-file (e.g. a folder) occupies the local path,
the skip check uses local modification time 0, so a remote file with
positive `modifiedTime` at such a path is never skipped — the item always
proceeds to transfer. -/
theorem pull_nonfile_mtime_zero (env : PullEnv) (rec : SyncRecord) (filePath : String)
    (df : DriveFileMeta) (hl : env.localFs filePath = some .tfolder)
    (hm : 0 < df.modifiedTime) :
    localMtimeOf (env.localFs filePath) = 0
    ∧ ∀ rec1, pullItem env rec filePath df ≠ .ok (rec1, .skipped) := by
  constructor
  · rw [hl]
    rfl
  · intro rec1 hc
    obtain ⟨hskip, _⟩ := (pullItem_skipped_iff env rec rec1 filePath df).mp hc
    rw [hl] at hskip
    simp only [pullSkip, localMtimeOf, Bool.and_eq_true, decide_eq_true_eq] at hskip
    omega

/-- Witness for C9: a folder at `notes` yields local mtime 0 and the remote
file at that path is not skipped. -/
theorem pull_nonfile_mtime_zero_witness :
    localMtimeOf (envPullFolderAt.localFs "notes") = 0
    ∧ pullItem envPullFolderAt [] "notes" ⟨"X", "notes", "application/pdf", 100⟩
        ≠ .ok ([], .skipped) := by
  constructor
  · exact (pull_nonfile_mtime_zero envPullFolderAt [] "notes"
      ⟨"X", "notes", "application/pdf", 100⟩ rfl (by decide)).1
  · exact (pull_nonfile_mtime_zero envPullFolderAt [] "notes"
      ⟨"X", "notes", "application/pdf", 100⟩ rfl (by decide)).2 []

/-- C10: When the stored `accessExpiry` does not parse as a valid date
(`parseDate` yields `none`, as for the default empty string), the expiry
test `now >= new Date(accessExpiry)` is false, so `validateAuthTokens`
performs no refresh exchange and returns the stored access token with the
credentials unchanged — even when that token is empty. -/
theorem auth_invalid_expiry_no_refresh (parseDate : String → Option Int) (now : Int)
    (refreshExchange : String → TokenResponse) (auth : UserAuth)
    (hp : parseDate auth.accessExpiry = none) :
    validateAuthTokens parseDate now refreshExchange auth = (auth, false, auth.accessToken) := by
  unfold validateAuthTokens
  have hexp : tokenExpired parseDate now auth.accessExpiry = false := by
    unfold tokenExpired
    rw [hp]
  rw [hexp]
  simp

/-- Witness for C10 at the default settings: empty expiry, empty token —
no refresh, empty token returned, credentials untouched. -/
theorem auth_invalid_expiry_no_refresh_witness :
    validateAuthTokens (fun _ => none) 1700000000000
      (fun _ => ⟨"newTok", "newRef", "2030-01-01"⟩) authEmpty
      = (authEmpty, false, "") :=
  auth_invalid_expiry_no_refresh (fun _ => none) 1700000000000
    (fun _ => ⟨"newTok", "newRef", "2030-01-01"⟩) authEmpty rfl

/-- C5: The batch scheduler (`chunks`, with the source's concurrency limit
K = 5) partitions the ordered work sequence into consecutive groups of size
at most K — flattening the groups restores the sequence, every group is
nonempty and has at most 5 items — and 12 pending items yield exactly 3
sequential groups of sizes 5, 5, 2. (Groups execute strictly in sequence:
`runBatches` processes each group to completion before the next, by
construction.) -/
theorem batch_partition (l : List TFileL) :
    ((chunks 5 l).flatten = l ∧ ∀ c ∈ chunks 5 l, 0 < c.length ∧ c.length ≤ 5)
    ∧ (l.length = 12 → (chunks 5 l).map List.length = [5, 5, 2]) :=
  ⟨⟨chunks_join 5 (by omega) l, chunks_sizes 5 (by omega) l⟩,
    fun h => chunks_lengths_twelve l h⟩

/-- Witness for C5: a concrete 12-item sequence is partitioned into groups
of sizes 5, 5, 2. -/
theorem batch_partition_witness :
    (chunks 5 (List.replicate 12 (⟨"p", "md", 0⟩ : TFileL))).map List.length = [5, 5, 2] :=
  (batch_partition (List.replicate 12 ⟨"p", "md", 0⟩)).2 (by simp)

/-- C8: On push, the upload request is a create — method POST, no target
id, metadata carrying the resolved parent folder id — exactly when no prior
record with a (truthy) remote id exists for the path, and an update —
method PATCH against the recorded remote id, metadata omitting `parents` so
the object is not re-parented — exactly when such a record exists.
(`pushFile` passes `env.upload` exactly
`buildUploadRequest (lookupRecord rec file.path) currentFolderId fileName`.) -/
theorem upload_create_vs_update (fileRecord : Option VaultFileRecord)
    (currentFolderId fileName : String) :
    (recordDriveId fileRecord = none →
      buildUploadRequest fileRecord currentFolderId fileName
        = { method := "POST", targetId := none, name := fileName,
            parents := some currentFolderId })
    ∧ (∀ gid, recordDriveId fileRecord = some gid →
      buildUploadRequest fileRecord currentFolderId fileName
        = { method := "PATCH", targetId := some gid, name := fileName, parents := none }) := by
  constructor
  · intro h
    unfold buildUploadRequest
    rw [h]
  · intro gid h
    unfold buildUploadRequest
    rw [h]

/-- Witness for C8: no record yields a POST carrying the parent folder;
a record with remote id `X` yields a PATCH against `X` without `parents`. -/
theorem upload_create_vs_update_witness :
    buildUploadRequest none "folder-1" "x.md"
      = { method := "POST", targetId := none, name := "x.md", parents := some "folder-1" }
    ∧ buildUploadRequest (some ⟨"X", 5⟩) "folder-1" "x.md"
      = { method := "PATCH", targetId := some "X", name := "x.md", parents := none } :=
  ⟨(upload_create_vs_update none "folder-1" "x.md").1 rfl,
   (upload_create_vs_update (some ⟨"X", 5⟩) "folder-1" "x.md").2 "X" rfl⟩

/-- C4: Deletion propagation. Push side: for every path in the record but
absent from the local enumeration, a remote delete is issued for its
recorded remote id, and the record entry is removed exactly when the delete
succeeds (retained on failure). Pull side: every local file absent from the
discovered remote map but present in the record is deleted locally, its
entry dropped exactly on success (on failure the path is reported and the
entry retained). -/
theorem deletion_reconciliation :
    (∀ (deleteOk : String → Bool) (localPaths : List String) (rec : SyncRecord)
        (p : String) (r : VaultFileRecord),
      (rec.map Prod.fst).Nodup → (p, r) ∈ rec → p ∉ localPaths →
      (p, r.gdriveId) ∈ (deleteSweepPush deleteOk localPaths rec).2.1
      ∧ (deleteOk r.gdriveId = true →
          lookupRecord (deleteSweepPush deleteOk localPaths rec).1 p = none
          ∧ p ∈ (deleteSweepPush deleteOk localPaths rec).2.2)
      ∧ (deleteOk r.gdriveId = false →
          lookupRecord (deleteSweepPush deleteOk localPaths rec).1 p = some r
          ∧ p ∉ (deleteSweepPush deleteOk localPaths rec).2.2))
    ∧ (∀ (deleteOk : String → Bool) (drivePaths localFiles : List String)
        (rec : SyncRecord) (p : String) (r : VaultFileRecord),
      p ∈ localFiles → p ∉ drivePaths → lookupRecord rec p = some r →
      (deleteOk p = true →
        p ∈ (deleteSweepPull deleteOk drivePaths rec localFiles).2.1
        ∧ lookupRecord (deleteSweepPull deleteOk drivePaths rec localFiles).1 p = none)
      ∧ (deleteOk p = false →
        p ∈ (deleteSweepPull deleteOk drivePaths rec localFiles).2.2
        ∧ lookupRecord (deleteSweepPull deleteOk drivePaths rec localFiles).1 p = some r)) :=
  ⟨fun dOk lp rec p r hnd hmem habs => sweepPush_spec dOk lp rec p r hnd hmem habs,
   fun dOk dp lf rec p r hmem habs hrec => sweepPull_spec dOk dp lf rec p r hmem habs hrec⟩

/-- Witness for C4: a record entry for a path deleted on the other side is
swept — the delete is issued and the entry removed — in both directions. -/
theorem deletion_reconciliation_witness :
    (("gone.md", "X") ∈ (deleteSweepPush (fun _ => true) [] [("gone.md", ⟨"X", 5⟩)]).2.1
      ∧ lookupRecord (deleteSweepPush (fun _ => true) [] [("gone.md", ⟨"X", 5⟩)]).1 "gone.md"
          = none)
    ∧ ("gone.md" ∈ (deleteSweepPull (fun _ => true) [] [("gone.md", ⟨"X", 5⟩)] ["gone.md"]).2.1
      ∧ lookupRecord
          (deleteSweepPull (fun _ => true) [] [("gone.md", ⟨"X", 5⟩)] ["gone.md"]).1 "gone.md"
          = none) := by
  have h1 := deletion_reconciliation.1 (fun _ => true) [] [("gone.md", ⟨"X", 5⟩)]
    "gone.md" ⟨"X", 5⟩ (by simp) (by simp) (by simp)
  have h2 := deletion_reconciliation.2 (fun _ => true) [] ["gone.md"]
    [("gone.md", ⟨"X", 5⟩)] "gone.md" ⟨"X", 5⟩ (by simp) (by simp) rfl
  exact ⟨⟨h1.1, (h1.2.1 rfl).1⟩, ⟨(h2.1 rfl).1, (h2.1 rfl).2⟩⟩

/-- C3 counterexample: a single item's folder-resolution fetch throwing
(`envPushResolveErr.vdf` always throws) makes the whole push reject — the
per-item failure escapes its batch and aborts the remaining sync (the
deletion sweep and record save never run), with no `AuthError` involved,
contradicting the claim that per-item transfer failures are always caught
at the item level. -/
theorem push_item_error_aborts_sync :
    syncVaultToDrive envPushResolveErr (fun _ => true) "vault-folder"
      [⟨"a/x.md", "md", 1000⟩] [] = .error "network error" := by
  have hc : chunks 5 [(⟨"a/x.md", "md", 1000⟩ : TFileL)] = [[⟨"a/x.md", "md", 1000⟩]] := by
    rw [chunks_cons 5 _ (by simp) (by omega)]
    simp [chunks_nil]
  unfold syncVaultToDrive
  rw [hc]
  rfl

/-- C3 amended: per-item error handling is partial and direction-specific.
Push: an upload response lacking an id is handled at the item level (item
settles, record untouched), but a thrown folder resolution escapes the
item; a batch containing a thrown item still runs its remaining (sibling)
items yet rejects, and a rejected batch aborts all remaining batches.
Pull: a thrown download escapes the item, while a failed local write is
caught at the item level with the record unchanged. No `AuthError`
mechanism exists in the code. -/
theorem per_item_error_policy :
    (∀ (env : PushEnv) (vfid : String) (rec : SyncRecord) (file : TFileL)
        (fid content : String),
      pushSkip (lookupRecord rec file.path) file.mtime = false →
      resolveChain env.vdf vfid (parentParts file.path) = .ok fid →
      env.read file = .ok content →
      env.upload (buildUploadRequest (lookupRecord rec file.path) fid (fileNameOf file.path))
        = .ok none →
      pushFile env vfid rec file = .ok (rec, .uploadNoId))
    ∧ (∀ (env : PushEnv) (vfid : String) (rec : SyncRecord) (file : TFileL) (msg : String),
      pushSkip (lookupRecord rec file.path) file.mtime = false →
      resolveChain env.vdf vfid (parentParts file.path) = .error msg →
      pushFile env vfid rec file = .error msg)
    ∧ (∀ (env : PushEnv) (vfid : String) (rec : SyncRecord) (file : TFileL)
        (rest : List TFileL) (msg : String),
      pushFile env vfid rec file = .error msg →
      runBatch env vfid rec (file :: rest)
        = ((runBatch env vfid rec rest).1, (runBatch env vfid rec rest).2.1, some msg))
    ∧ (∀ (env : PushEnv) (vfid : String) (rec : SyncRecord) (b : List TFileL)
        (bs : List (List TFileL)) (msg : String),
      (runBatch env vfid rec b).2.2 = some msg →
      runBatches env vfid rec (b :: bs) = .error msg)
    ∧ (∀ (env : PullEnv) (rec : SyncRecord) (filePath : String) (df : DriveFileMeta)
        (msg : String),
      pullSkip (env.localFs filePath) (lookupRecord rec filePath) df = false →
      env.fetch df.id (isEditorFile df.mimeType) = .error msg →
      pullItem env rec filePath df = .error msg)
    ∧ (∀ (env : PullEnv) (rec : SyncRecord) (filePath : String) (df : DriveFileMeta)
        (content e : String),
      pullSkip (env.localFs filePath) (lookupRecord rec filePath) df = false →
      env.fetch df.id (isEditorFile df.mimeType) = .ok content →
      pullWriteAttempt env filePath (isEditorFile df.mimeType) (env.localFs filePath)
        = .error e →
      pullItem env rec filePath df = .ok (rec, .failReported e)) := by
  refine ⟨?_, ?_, ?_, ?_, ?_, ?_⟩
  · intro env vfid rec file fid content h1 h2 h3 h4
    unfold pushFile
    simp only [h1, Bool.false_eq_true, if_false, h2, h3, h4]
  · intro env vfid rec file msg h1 h2
    unfold pushFile
    simp only [h1, Bool.false_eq_true, if_false, h2]
  · exact fun env vfid rec file rest msg h => runBatch_error_continues env vfid rec file rest msg h
  · exact fun env vfid rec b bs msg h => runBatches_head_error env vfid rec b bs msg h
  · intro env rec filePath df msg h1 h2
    unfold pullItem
    simp only [h1, Bool.false_eq_true, if_false, h2]
  · intro env rec filePath df content e h1 h2 h3
    unfold pullItem
    simp only [h1, Bool.false_eq_true, if_false, h2, h3]

/-- Witness for C3 (amended) at concrete inputs: a no-id upload response is
handled per item with the record untouched; a thrown folder resolution
escapes the item; a failed pull write is caught per item. -/
theorem per_item_error_policy_witness :
    pushFile envPushNoId "vf" [] ⟨"x.md", "md", 5⟩ = .ok ([], .uploadNoId)
    ∧ pushFile envPushResolveErr "vf" [] ⟨"a/x.md", "md", 5⟩ = .error "network error"
    ∧ pullItem envPullWriteFail [] "x.png" ⟨"G", "x.png", "image/png", 7⟩
        = .ok ([], .failReported ("write failed: " ++ "x.png")) := by
  refine ⟨?_, ?_, ?_⟩
  · exact per_item_error_policy.1 envPushNoId "vf" [] ⟨"x.md", "md", 5⟩ "vf" "content"
      rfl rfl rfl rfl
  · exact per_item_error_policy.2.1 envPushResolveErr "vf" [] ⟨"a/x.md", "md", 5⟩
      "network error" rfl rfl
  · exact per_item_error_policy.2.2.2.2.2 envPullWriteFail [] "x.png"
      ⟨"G", "x.png", "image/png", 7⟩ "content" ("write failed: " ++ "x.png") rfl rfl rfl

/-- C6 (claim is right, code is wrong): at the spec's own example — remote
`notes/a.md` of mimeType `application/vnd.google-apps.document` with no
local counterpart — the pull item does not create the file: the code calls
`vault.modify(localFile as TFile, ...)` with `localFile === null`, which
throws inside the try block, so the item is reported failed and the record
stays unchanged, instead of writing the exported markdown to `notes/a.md`. -/
theorem pull_editor_native_new_file_fails :
    pullItem envPullFresh [] "notes/a.md"
      ⟨"gid-1", "a.md", "application/vnd.google-apps.document", 5000⟩
      = .ok ([], .failReported "vault.modify called without a TFile: notes/a.md") := rfl

/-- C7 counterexample: both items of the same push batch resolve folder `a`
concurrently (`Promise.all` starts every item before any response lands),
so both searches observe the state without `a` and each issues a create —
folder `a` is created twice, not once. -/
theorem folder_double_create_counterexample :
    createsOf (resolveTwiceBatch emptyDrive "root" "a").2.2 "a" = 2
    ∧ createsOf (resolveTwiceBatch emptyDrive "root" "a").2.2 "a" ≠ 1 := by
  decide

/-- C7 amended: a single `validateDriveFolder` resolution is search-or-create
(an existing non-trashed folder's id is returned without mutation; otherwise
exactly one create, whose folder the next search finds), and two resolutions
of the same name executed strictly in sequence create the folder exactly
once (zero times when it preexists); but two resolutions racing in the same
batch — both searches before either create, as `Promise.all` schedules
them — create it twice when absent (still zero when it preexists). -/
theorem folder_search_or_create (st : DriveState) (parentId folderName : String) :
    (∀ fid, searchFolder st parentId folderName = some fid →
      validateDriveFolder st parentId folderName = (fid, st))
    ∧ (searchFolder st parentId folderName = none →
      (validateDriveFolder st parentId folderName).2.createLog = st.createLog ++ [folderName]
      ∧ searchFolder (validateDriveFolder st parentId folderName).2 parentId folderName
          = some (validateDriveFolder st parentId folderName).1)
    ∧ (searchFolder st parentId folderName = none →
      (resolveTwiceSeq st parentId folderName).2.2.createLog = st.createLog ++ [folderName])
    ∧ (∀ fid, searchFolder st parentId folderName = some fid →
      (resolveTwiceSeq st parentId folderName).2.2 = st)
    ∧ (searchFolder st parentId folderName = none →
      (resolveTwiceBatch st parentId folderName).2.2.createLog
        = st.createLog ++ [folderName, folderName])
    ∧ (∀ fid, searchFolder st parentId folderName = some fid →
      (resolveTwiceBatch st parentId folderName).2.2 = st) := by
  refine ⟨fun fid h => validateDriveFolder_found st parentId folderName fid h,
    ?_, ?_, ?_, ?_, ?_⟩
  · intro h
    rw [validateDriveFolder_created st parentId folderName h]
    exact ⟨rfl, searchFolder_createFolder st parentId folderName h⟩
  · intro h
    unfold resolveTwiceSeq
    rw [validateDriveFolder_created st parentId folderName h]
    dsimp only
    rw [validateDriveFolder_found _ parentId folderName _
      (searchFolder_createFolder st parentId folderName h)]
    rfl
  · intro fid h
    unfold resolveTwiceSeq
    rw [validateDriveFolder_found st parentId folderName fid h]
    dsimp only
    rw [validateDriveFolder_found st parentId folderName fid h]
  · intro h
    unfold resolveTwiceBatch
    rw [h]
    simp only [createFolder, List.append_assoc]
    rfl
  · intro fid h
    unfold resolveTwiceBatch
    rw [h]

/-- Witness for C7 (amended) at concrete states: a preexisting folder `a`
resolves without mutation; sequential resolution of an absent `a` creates
it once; the same-batch race creates it twice. -/
theorem folder_search_or_create_witness :
    validateDriveFolder stWithA "root" "a" = ("fa", stWithA)
    ∧ (resolveTwiceSeq emptyDrive "root" "a").2.2.createLog = [] ++ ["a"]
    ∧ (resolveTwiceBatch emptyDrive "root" "a").2.2.createLog = [] ++ ["a", "a"] :=
  ⟨(folder_search_or_create stWithA "root" "a").1 "fa" rfl,
   (folder_search_or_create emptyDrive "root" "a").2.2.1 rfl,
   (folder_search_or_create emptyDrive "root" "a").2.2.2.2.1 rfl⟩
